import Mathlib

/-!
Verification of the numerical core of the `dieboldmariano` package
(`src/dieboldmariano/dieboldmariano.py`): the k-lagged autocovariance,
the modified-Lentz continued-fraction evaluator, the regularized
incomplete beta function, and the Diebold-Mariano orchestrator
`dm_test`.

The Python code works on IEEE doubles; the embedding models the
arithmetic exactly (a `LinearOrderedField`, instantiated at `ℚ` for the
executable parts and at `ℝ` where `sqrt`, `exp`, `log`, `lgamma`
appear).  Operations that can raise in Python are modelled in an
`Except` monad: `math.log` raises on nonpositive arguments,
`math.log1p` raises at or below `-1`, float division raises on a zero
denominator, and a user-supplied loss callable may raise.  `NaN` is
modelled by `Option`: `none` is NaN, `some r` a finite value.
-/

set_option autoImplicit false

namespace DieboldMariano

variable {F : Type} [LinearOrderedField F]

/-- The magnitude floor of the loop body (source lines 62-63 and
66-67): `if fabs(v) < small: v = small`. -/
def ecfFloor (v small : F) : F := if |v| < small then small else v

/-- One body execution of the `while` loop of
`evaluate_continuous_fraction` (source lines 57-71): from the previous
(already inverted) `d`, previous `c` and the step index `n`, produce
`(delta_n, d_n, c_n)` where `d_n = 1 / floor(fa + fb * d_prev)`,
`c_n = floor(fa + fb / c_prev)` and `delta_n = c_n * d_n`. -/
def ecfStep (fa fb : ℕ → F → F) (x small : F) (n : ℕ) (dPrev cPrev : F) :
    F × F × F :=
  let a := fa n x
  let b := fb n x
  let dn := 1 / ecfFloor (a + b * dPrev) small
  let cn := ecfFloor (a + b / cPrev) small
  (cn * dn, dn, cn)

/-- The `while` loop of `evaluate_continuous_fraction` (source lines
57-80), recursing on the remaining `fuel = maxiter - n`.  Returns the
final `hn` together with the number of loop-body executions.  On the
epsilon break the just-computed `hn` is returned; otherwise the
updated `h_prev`, `d_prev`, `c_prev` (all equal to the freshly
computed values, `d` stored inverted as in the source) flow into the
next iteration. -/
def ecfLoop (fa fb : ℕ → F → F) (x eps small : F) :
    ℕ → ℕ → F → F → F → F → F × ℕ
  | 0, _, _, _, _, hn => (hn, 0)
  | fuel + 1, n, hPrev, dPrev, cPrev, _ =>
    let s := ecfStep fa fb x small n dPrev cPrev
    let hn := hPrev * s.1
    if |s.1 - 1| < eps then (hn, 1)
    else
      let r := ecfLoop fa fb x eps small fuel (n + 1) hn s.2.1 s.2.2 hn
      (r.1, r.2 + 1)

/-- Source line 48-50: `h_prev = fa(0, x)` followed by
`if fabs(h_prev < small): h_prev = small`.  In Python `h_prev < small`
is a boolean, so `fabs` of it is truthy exactly when `h_prev < small`:
the test is on the signed value, not on the magnitude. -/
def ecfInit (h0 small : F) : F := if h0 < small then small else h0

/-- `evaluate_continuous_fraction` (source lines 36-82) together with
the number of executed loop iterations.  The loop runs `while
n < maxiter` starting from `n = 1`, hence at most `maxiter - 1` body
executions. -/
def ecfRun (fa fb : ℕ → F → F) (x eps : F) (maxiter : ℕ) (small : F) :
    F × ℕ :=
  let hPrev := ecfInit (fa 0 x) small
  ecfLoop fa fb x eps small (maxiter - 1) 1 hPrev 0 hPrev hPrev

/-- `evaluate_continuous_fraction` (source lines 36-82): the returned
value. -/
def evaluate_continuous_fraction (fa fb : ℕ → F → F) (x eps : F)
    (maxiter : ℕ) (small : F) : F :=
  (ecfRun fa fb x eps maxiter small).1

/-- `autocovariance` (source lines 21-25):
`sum((a - mean) * (b - mean) for a, b in zip(islice(X, k, None), X)) / len(X)`. -/
def autocovariance (X : List F) (k : ℕ) (mean : F) : F :=
  (((X.drop k).zip X).map fun p => (p.1 - mean) * (p.2 - mean)).sum
    / (X.length : F)

/-- The loop executes at most `fuel` iterations. -/
theorem ecfLoop_steps_le (fa fb : ℕ → F → F) (x eps small : F) :
    ∀ (fuel n : ℕ) (hP dP cP hn : F),
      (ecfLoop fa fb x eps small fuel n hP dP cP hn).2 ≤ fuel := by
  intro fuel
  induction fuel with
  | zero => intro n hP dP cP hn; simp [ecfLoop]
  | succ fuel ih =>
    intro n hP dP cP hn
    simp only [ecfLoop]
    split
    · simp
    · simpa using Nat.succ_le_succ (ih _ _ _ _ _)

/-- The floored intermediate values are nonzero whenever the floor is
positive. -/
theorem ecfFloor_ne_zero (v small : F) (hs : 0 < small) :
    ecfFloor v small ≠ 0 := by
  unfold ecfFloor
  split
  · exact ne_of_gt hs
  · rename_i hcond
    exact abs_pos.mp (lt_of_lt_of_le hs (not_lt.mp hcond))

/-- Each `delta_n` is nonzero whenever the floor is positive. -/
theorem ecfStep_delta_ne_zero (fa fb : ℕ → F → F) (x small : F)
    (n : ℕ) (dP cP : F) (hs : 0 < small) :
    (ecfStep fa fb x small n dP cP).1 ≠ 0 := by
  unfold ecfStep
  exact mul_ne_zero (ecfFloor_ne_zero _ _ hs)
    (one_div_ne_zero (ecfFloor_ne_zero _ _ hs))

/-- If `small > 0` then every value produced by the loop is nonzero:
the floored `cn` and `dn` are nonzero, hence so is each `hn`. -/
theorem ecfLoop_fst_ne_zero (fa fb : ℕ → F → F) (x eps small : F)
    (hs : 0 < small) :
    ∀ (fuel n : ℕ) (hP dP cP hn : F), hP ≠ 0 → hn ≠ 0 →
      (ecfLoop fa fb x eps small fuel n hP dP cP hn).1 ≠ 0 := by
  intro fuel
  induction fuel with
  | zero => intro n hP dP cP hn _ h2; simpa [ecfLoop] using h2
  | succ fuel ih =>
    intro n hP dP cP hn h1 _
    have hnew : hP * (ecfStep fa fb x small n dP cP).1 ≠ 0 :=
      mul_ne_zero h1 (ecfStep_delta_ne_zero fa fb x small n dP cP hs)
    simp only [ecfLoop]
    split
    · exact hnew
    · exact ih _ _ _ _ _ hnew hnew

/-- The initialization is always positive (in particular nonzero) when
`small > 0`: either it is `small`, or it is `h0` with
`¬ (h0 < small)`. -/
theorem ecfInit_pos (h0 small : F) (hs : 0 < small) :
    0 < ecfInit h0 small := by
  unfold ecfInit
  split
  · exact hs
  · exact lt_of_lt_of_le hs (not_lt.mp (by assumption))

/-- With a positive floor, `evaluate_continuous_fraction` never
returns zero; hence dividing by it cannot raise `ZeroDivisionError`. -/
theorem evaluate_continuous_fraction_ne_zero (fa fb : ℕ → F → F)
    (x eps : F) (maxiter : ℕ) (small : F) (hs : 0 < small) :
    evaluate_continuous_fraction fa fb x eps maxiter small ≠ 0 := by
  unfold evaluate_continuous_fraction ecfRun
  have hP := ne_of_gt (ecfInit_pos (fa 0 x) small hs)
  exact ecfLoop_fst_ne_zero fa fb x eps small hs _ _ _ _ _ _ hP hP

/-- When the first computed `delta` is within `eps` of `1`, the loop
breaks immediately with one executed iteration, returning the freshly
computed `hn`. -/
theorem ecfLoop_break (fa fb : ℕ → F → F) (x eps small : F)
    (fuel n : ℕ) (hP dP cP hn : F)
    (h : |(ecfStep fa fb x small n dP cP).1 - 1| < eps) :
    ecfLoop fa fb x eps small (fuel + 1) n hP dP cP hn =
      (hP * (ecfStep fa fb x small n dP cP).1, 1) := by
  simp only [ecfLoop]
  rw [if_pos h]

/-- Claim C3: `evaluate_continuous_fraction` iterates the loop over
step indices starting at `n = 1`, stopping on the epsilon break or
when `n = maxiter` is reached, and the number of executed loop-body
iterations is at most `maxiter` for all inputs: the evaluator never
loops unboundedly. -/
theorem ecf_terminates_within_maxiter (fa fb : ℕ → ℝ → ℝ)
    (x eps small : ℝ) (maxiter : ℕ) :
    (ecfRun fa fb x eps maxiter small).2 ≤ maxiter := by
  unfold ecfRun
  exact le_trans (ecfLoop_steps_le fa fb x eps small (maxiter - 1) 1
    _ _ _ _) (Nat.sub_le _ _)

/-- Claim C4 (code evaluated at the failing input): with
`fa(0,x) = -2` — a value of large magnitude, `|-2| >= small` — the
initial `h_0` is nevertheless replaced by the floor `small = 1e-50`
(so the whole fraction evaluates to `1e-50` instead of keeping
`h_0 = -2`): source line 49 computes `fabs(h_prev < small)`, the
absolute value of a boolean, which is truthy exactly when
`h_prev < small` holds as a signed comparison, not a magnitude test. -/
theorem ecf_floors_negative_h0_of_large_magnitude :
    evaluate_continuous_fraction (F := ℚ)
        (fun n _ => if n = 0 then -2 else 1) (fun _ _ => 0) 0
        (1 / 10 ^ 10) 10000 (1 / 10 ^ 50) = 1 / 10 ^ 50 ∧
      ¬ |(-2 : ℚ)| < 1 / 10 ^ 50 := by
  constructor
  · unfold evaluate_continuous_fraction ecfRun
    rw [show (10000 - 1 : ℕ) = 9998 + 1 from rfl]
    rw [ecfLoop_break]
    · norm_num [ecfInit, ecfStep, ecfFloor]
    · norm_num [ecfInit, ecfStep, ecfFloor]
  · norm_num

/-- Claim C9: for a non-empty sequence `X` and any lag `k >= len X`,
`autocovariance` returns `0` rather than failing: the shifted copy is
empty, the zip has empty overlap, the sum over it is `0`, and the
division by `len X > 0` yields `0`. -/
theorem autocovariance_lag_ge_length_eq_zero (X : List ℝ) (k : ℕ)
    (mean : ℝ) (hne : X ≠ []) (hk : X.length ≤ k) :
    autocovariance X k mean = 0 := by
  unfold autocovariance
  rw [List.drop_eq_nil_of_le hk]
  simp

/-- Witness for C9 at the concrete input `X = [1, 2]`, `k = 5`,
`mean = 3`. -/
theorem autocovariance_lag_ge_length_eq_zero_witness :
    autocovariance ([1, 2] : List ℝ) 5 3 = 0 :=
  autocovariance_lag_ge_length_eq_zero [1, 2] 5 3 (by simp) (by simp)

/-- `math.lgamma`: the natural log of the absolute value of the Gamma
function. -/
noncomputable def lgamma (r : ℝ) : ℝ := Real.log |Real.Gamma r|

/-- `log_beta` (source lines 28-33):
`lgamma(a) + lgamma(b) - lgamma(a + b)`. -/
noncomputable def log_beta (a b : ℝ) : ℝ := lgamma a + lgamma b - lgamma (a + b)

/-- The inner `fa` of `regularized_incomplete_beta` (source lines
96-97): constantly `1`. -/
def ribFa (_n : ℕ) (_x : ℝ) : ℝ := 1

/-- The inner `fb` of `regularized_incomplete_beta` (source lines
99-105): the even/odd Lentz coefficients of the incomplete beta
continued fraction, with `m = n/2` resp. `m = (n-1)/2` as real
half-integers. -/
noncomputable def ribFb (a b : ℝ) (n : ℕ) (x : ℝ) : ℝ :=
  if n % 2 = 0 then
    let m : ℝ := (n : ℝ) / 2
    (m * (b - m) * x) / ((a + 2 * m - 1) * (a + 2 * m))
  else
    let m : ℝ := ((n : ℝ) - 1) / 2;
    -((a + m) * (a + b + m) * x) / ((a + 2 * m) * (a + 2 * m + 1))

/-- `regularized_incomplete_beta` (source lines 85-109), with an
explicit recursion depth `fuel` (the source recursion is depth-bounded
by the reflection rule; `fuel = 0` with the reflection condition true
would be a diverging call and is mapped to an error, a state proved
unreachable below).  Inputs are `Option ℝ` (`none` is NaN); the result
is `Except`: `.error ()` models a raised exception (`math.log` /
`math.log1p` domain error, or float division by zero), `.ok none`
models a returned NaN, `.ok (some r)` a returned finite value. -/
noncomputable def ribF (eps : ℝ) (maxiter : ℕ) :
    ℕ → Option ℝ → Option ℝ → Option ℝ → Except Unit (Option ℝ)
  | _, none, _, _ => .ok none
  | _, _, none, _ => .ok none
  | _, _, _, none => .ok none
  | fuel, some x, some a, some b =>
    if x < 0 ∨ 1 < x ∨ a ≤ 0 ∨ b ≤ 0 then .ok none
    else if (a + 1) / (2 + b + a) < x ∧ 1 - x ≤ (b + 1) / (2 + b + a) then
      match fuel with
      | 0 => .error ()
      | fuel' + 1 =>
        (ribF eps maxiter fuel' (some (1 - x)) (some b) (some a)).map
          fun p => p.map fun r => 1 - r
    else if x ≤ 0 then .error ()
    else if 1 - x ≤ 0 then .error ()
    else
      let denom := evaluate_continuous_fraction ribFa (ribFb a b) x eps
        maxiter (1 / 10 ^ 50)
      if denom = 0 then .error ()
      else
        .ok (some (Real.exp (a * Real.log x + b * Real.log (1 - x) -
          Real.log a - log_beta a b) / denom))

/-- `regularized_incomplete_beta`: the source's entry point.  Depth 1
of reflection recursion suffices (proved below: the reflection never
re-triggers on the swapped arguments). -/
noncomputable def regularized_incomplete_beta (x a b : Option ℝ)
    (eps : ℝ) (maxiter : ℕ) : Except Unit (Option ℝ) :=
  ribF eps maxiter 1 x a b

/-- The reflection condition never holds again for the swapped
arguments `(1 - x, b, a)`: its first conjunct contradicts the second
conjunct of the original condition. -/
theorem reflect_not_retriggered (x a b : ℝ)
    (h : 1 - x ≤ (b + 1) / (2 + b + a)) :
    ¬((b + 1) / (2 + a + b) < 1 - x ∧
      1 - (1 - x) ≤ (a + 1) / (2 + a + b)) := by
  intro hc
  have h1 : (b + 1) / (2 + a + b) = (b + 1) / (2 + b + a) := by ring_nf
  rw [h1] at hc
  exact absurd hc.1 (not_lt.mpr h)

/-- Unfolding `ribF` on in-range arguments when the reflection
condition fails: the result is the direct evaluation, independent of
the remaining fuel. -/
theorem ribF_of_not_reflect (eps : ℝ) (maxiter fuel : ℕ) (x a b : ℝ)
    (h : ¬((a + 1) / (2 + b + a) < x ∧ 1 - x ≤ (b + 1) / (2 + b + a))) :
    ribF eps maxiter fuel (some x) (some a) (some b) =
      if x < 0 ∨ 1 < x ∨ a ≤ 0 ∨ b ≤ 0 then .ok none
      else if x ≤ 0 then .error ()
      else if 1 - x ≤ 0 then .error ()
      else if evaluate_continuous_fraction ribFa (ribFb a b) x eps
          maxiter (1 / 10 ^ 50) = 0 then .error ()
      else
        .ok (some (Real.exp (a * Real.log x + b * Real.log (1 - x) -
            Real.log a - log_beta a b) /
          evaluate_continuous_fraction ribFa (ribFb a b) x eps maxiter
            (1 / 10 ^ 50))) := by
  cases fuel with
  | zero => simp only [ribF]; rw [if_neg h]
  | succ fuel => simp only [ribF]; rw [if_neg h]

/-- Unfolding `ribF` on in-range arguments when the reflection
condition holds: one recursive call on the swapped arguments, with one
unit of fuel consumed. -/
theorem ribF_reflect_step (eps : ℝ) (maxiter fuel : ℕ) (x a b : ℝ)
    (hguard : ¬(x < 0 ∨ 1 < x ∨ a ≤ 0 ∨ b ≤ 0))
    (hcond : (a + 1) / (2 + b + a) < x ∧
      1 - x ≤ (b + 1) / (2 + b + a)) :
    ribF eps maxiter (fuel + 1) (some x) (some a) (some b) =
      (ribF eps maxiter fuel (some (1 - x)) (some b) (some a)).map
        fun p => p.map fun r => 1 - r := by
  simp only [ribF]
  rw [if_neg hguard, if_pos hcond]

/-- When the domain guard fires, `ribF` returns NaN, whatever the
fuel. -/
theorem ribF_of_guard (eps : ℝ) (maxiter fuel : ℕ) (x a b : ℝ)
    (h : x < 0 ∨ 1 < x ∨ a ≤ 0 ∨ b ≤ 0) :
    ribF eps maxiter fuel (some x) (some a) (some b) = .ok none := by
  cases fuel with
  | zero => simp only [ribF]; rw [if_pos h]
  | succ fuel => simp only [ribF]; rw [if_pos h]

/-- On in-range arguments with the reflection condition false, `ribF`
never returns NaN: every branch of the direct path is an exception or
a finite value. -/
theorem ribF_ne_ok_none_of_in_domain (eps : ℝ) (maxiter fuel : ℕ)
    (x a b : ℝ) (hx0 : 0 ≤ x) (hx1 : x ≤ 1) (ha : 0 < a) (hb : 0 < b)
    (h : ¬((a + 1) / (2 + b + a) < x ∧ 1 - x ≤ (b + 1) / (2 + b + a))) :
    ribF eps maxiter fuel (some x) (some a) (some b) ≠ .ok none := by
  rw [ribF_of_not_reflect eps maxiter fuel x a b h]
  rw [if_neg (by push_neg; exact ⟨hx0, hx1, ha, hb⟩)]
  split_ifs <;> simp

/-- Mapping `1 - r` over an `Except`ed optional value cannot create a
NaN that was not already there. -/
theorem map_one_sub_ne_ok_none (e : Except Unit (Option ℝ))
    (he : e ≠ .ok none) :
    e.map (fun p => p.map fun r => 1 - r) ≠ .ok none := by
  cases e with
  | error u => simp [Except.map]
  | ok p =>
    cases p with
    | none => exact absurd rfl he
    | some r => simp [Except.map]

/-- Claim C6: for in-domain `x`, `a`, `b` satisfying the reflection
condition `x > (a+1)/(a+b+2)` and `1-x <= (b+1)/(a+b+2)`,
`regularized_incomplete_beta` returns `1 - I(1-x, b, a)` (NaN and
raised exceptions propagating through the subtraction), and the
swapped arguments `(1-x, b, a)` never satisfy the reflection condition
again, so the recursion depth is at most 1. -/
theorem rib_reflection_once (eps : ℝ) (maxiter : ℕ) (x a b : ℝ)
    (hx0 : 0 ≤ x) (hx1 : x ≤ 1) (ha : 0 < a) (hb : 0 < b)
    (hclt : (a + 1) / (2 + b + a) < x)
    (hcle : 1 - x ≤ (b + 1) / (2 + b + a)) :
    regularized_incomplete_beta (some x) (some a) (some b) eps maxiter =
      (regularized_incomplete_beta (some (1 - x)) (some b) (some a) eps
          maxiter).map (fun p => p.map fun r => 1 - r) ∧
      ¬((b + 1) / (2 + a + b) < 1 - x ∧
        1 - (1 - x) ≤ (a + 1) / (2 + a + b)) := by
  have hnr := reflect_not_retriggered x a b hcle
  have hguard : ¬(x < 0 ∨ 1 < x ∨ a ≤ 0 ∨ b ≤ 0) := by
    push_neg; exact ⟨hx0, hx1, ha, hb⟩
  refine ⟨?_, hnr⟩
  unfold regularized_incomplete_beta
  rw [ribF_reflect_step eps maxiter 0 x a b hguard ⟨hclt, hcle⟩]
  rw [ribF_of_not_reflect eps maxiter 0 (1 - x) b a hnr,
    ribF_of_not_reflect eps maxiter 1 (1 - x) b a hnr]

/-- Witness for C6 at `x = 3/4`, `a = b = 1` (the reflection condition
holds there: `1/2 < 3/4` and `1/4 <= 1/2`). -/
theorem rib_reflection_once_witness :
    regularized_incomplete_beta (some (3 / 4 : ℝ)) (some 1) (some 1)
        (1 / 10 ^ 10) 10000 =
      (regularized_incomplete_beta (some (1 - 3 / 4 : ℝ)) (some 1)
          (some 1) (1 / 10 ^ 10) 10000).map
        (fun p => p.map fun r => 1 - r) ∧
      ¬(((1 : ℝ) + 1) / (2 + 1 + 1) < 1 - 3 / 4 ∧
        1 - (1 - (3 / 4 : ℝ)) ≤ (1 + 1) / (2 + 1 + 1)) :=
  rib_reflection_once (1 / 10 ^ 10) 10000 (3 / 4) 1 1 (by norm_num)
    (by norm_num) (by norm_num) (by norm_num) (by norm_num) (by norm_num)

/-- Claim C1 counterexample: at `x = 0`, `a = 1`, `b = 1` — inside the
claimed domain `x ∈ [0,1]`, `a, b > 0` — `regularized_incomplete_beta`
raises (Python: `ValueError` from `math.log(0.0)` in the direct
branch) instead of returning a float. -/
theorem rib_raises_at_x_eq_zero :
    regularized_incomplete_beta (some (0 : ℝ)) (some 1) (some 1)
      (1 / 10 ^ 10) 10000 = .error () := by
  unfold regularized_incomplete_beta
  rw [ribF_of_not_reflect (1 / 10 ^ 10) 10000 1 0 1 1 (by norm_num)]
  norm_num

/-- Claim C1 (amended): for `x` in the open interval `(0, 1)` and
`a, b > 0` the function returns a finite float and raises nothing; at
the endpoints `x = 0` and `x = 1` it raises (`math.log` /
`math.log1p` domain error) instead of returning; and the returned
value is NaN exactly when `x`, `a` or `b` is NaN, or `x < 0`, or
`x > 1`, or `a <= 0`, or `b <= 0`. -/
theorem rib_domain_and_error_behavior (eps : ℝ) (maxiter : ℕ)
    (x a b : ℝ) (hx0 : 0 ≤ x) (hx1 : x ≤ 1) (ha : 0 < a) (hb : 0 < b) :
    (0 < x → x < 1 → ∃ r : ℝ,
      regularized_incomplete_beta (some x) (some a) (some b) eps
        maxiter = .ok (some r)) ∧
    ((x = 0 ∨ x = 1) →
      regularized_incomplete_beta (some x) (some a) (some b) eps
        maxiter = .error ()) ∧
    (∀ y c d : ℝ,
      regularized_incomplete_beta (some y) (some c) (some d) eps
          maxiter = .ok none ↔
        y < 0 ∨ 1 < y ∨ c ≤ 0 ∨ d ≤ 0) ∧
    (∀ oa ob, regularized_incomplete_beta none oa ob eps maxiter =
      .ok none) ∧
    (∀ ox ob, regularized_incomplete_beta ox none ob eps maxiter =
      .ok none) ∧
    (∀ ox oa, regularized_incomplete_beta ox oa none eps maxiter =
      .ok none) := by
  have hden : ∀ (x' a' b' : ℝ),
      evaluate_continuous_fraction ribFa (ribFb a' b') x' eps maxiter
        (1 / 10 ^ 50) ≠ 0 :=
    fun x' a' b' => evaluate_continuous_fraction_ne_zero _ _ _ _ _ _
      (by norm_num)
  refine ⟨?_, ?_, ?_, ?_, ?_, ?_⟩
  · -- open interval: a finite value, no exception
    intro hx0' hx1'
    have hguard : ¬(x < 0 ∨ 1 < x ∨ a ≤ 0 ∨ b ≤ 0) := by
      push_neg; exact ⟨hx0, hx1, ha, hb⟩
    by_cases hcond : (a + 1) / (2 + b + a) < x ∧
        1 - x ≤ (b + 1) / (2 + b + a)
    · have hnr := reflect_not_retriggered x a b hcond.2
      unfold regularized_incomplete_beta
      rw [ribF_reflect_step eps maxiter 0 x a b hguard hcond]
      rw [ribF_of_not_reflect eps maxiter 0 (1 - x) b a hnr]
      rw [if_neg (by push_neg; exact ⟨by linarith, by linarith, hb, ha⟩)]
      rw [if_neg (by intro hc; linarith : ¬(1 - x ≤ 0))]
      rw [if_neg (by intro hc; linarith : ¬(1 - (1 - x) ≤ 0))]
      rw [if_neg (hden (1 - x) b a)]
      exact ⟨_, rfl⟩
    · unfold regularized_incomplete_beta
      rw [ribF_of_not_reflect eps maxiter 1 x a b hcond]
      rw [if_neg hguard]
      rw [if_neg (not_le.mpr hx0')]
      rw [if_neg (by intro hc; linarith : ¬(1 - x ≤ 0))]
      rw [if_neg (hden x a b)]
      exact ⟨_, rfl⟩
  · -- the endpoints raise
    intro hx01
    have hd : (0 : ℝ) < 2 + b + a := by linarith
    rcases hx01 with h0 | h1
    · subst h0
      have hcond : ¬((a + 1) / (2 + b + a) < 0 ∧
          (1 : ℝ) - 0 ≤ (b + 1) / (2 + b + a)) := by
        intro hc
        have : (0 : ℝ) < (a + 1) / (2 + b + a) :=
          div_pos (by linarith) hd
        linarith [hc.1]
      unfold regularized_incomplete_beta
      rw [ribF_of_not_reflect eps maxiter 1 0 a b hcond]
      rw [if_neg (by push_neg; exact ⟨le_refl 0, by norm_num, ha, hb⟩)]
      rw [if_pos (le_refl (0 : ℝ))]
    · subst h1
      have hguard : ¬((1 : ℝ) < 0 ∨ 1 < (1 : ℝ) ∨ a ≤ 0 ∨ b ≤ 0) := by
        push_neg; exact ⟨by norm_num, le_refl 1, ha, hb⟩
      have hcond : (a + 1) / (2 + b + a) < 1 ∧
          (1 : ℝ) - 1 ≤ (b + 1) / (2 + b + a) := by
        constructor
        · rw [div_lt_one hd]; linarith
        · have : (0 : ℝ) ≤ (b + 1) / (2 + b + a) :=
            le_of_lt (div_pos (by linarith) hd)
          linarith
      unfold regularized_incomplete_beta
      rw [ribF_reflect_step eps maxiter 0 1 a b hguard hcond]
      have hnot : ¬((b + 1) / (2 + a + b) < 1 - (1 : ℝ) ∧
          1 - (1 - (1 : ℝ)) ≤ (a + 1) / (2 + a + b)) := by
        intro hc
        have : (0 : ℝ) < (b + 1) / (2 + a + b) :=
          div_pos (by linarith) (by linarith)
        have h11 : (1 : ℝ) - 1 = 0 := by norm_num
        rw [h11] at hc
        linarith [hc.1]
      rw [ribF_of_not_reflect eps maxiter 0 (1 - 1) b a hnot]
      rw [if_neg (by push_neg; exact ⟨by norm_num, by norm_num, hb, ha⟩)]
      rw [if_pos (by norm_num : (1 : ℝ) - 1 ≤ 0)]
      rfl
  · -- NaN exactly on the out-of-domain conditions
    intro y c d
    constructor
    · intro heq
      by_contra hdisj
      push_neg at hdisj
      obtain ⟨hy0, hy1, hc, hd⟩ := hdisj
      by_cases hcond : (c + 1) / (2 + d + c) < y ∧
          1 - y ≤ (d + 1) / (2 + d + c)
      · have hnr := reflect_not_retriggered y c d hcond.2
        have hguard : ¬(y < 0 ∨ 1 < y ∨ c ≤ 0 ∨ d ≤ 0) := by
          push_neg; exact ⟨hy0, hy1, hc, hd⟩
        unfold regularized_incomplete_beta at heq
        rw [ribF_reflect_step eps maxiter 0 y c d hguard hcond] at heq
        exact map_one_sub_ne_ok_none _
          (ribF_ne_ok_none_of_in_domain eps maxiter 0 (1 - y) d c
            (by linarith) (by linarith) hd hc hnr) heq
      · exact ribF_ne_ok_none_of_in_domain eps maxiter 1 y c d hy0 hy1
          hc hd hcond heq
    · intro hdisj
      exact ribF_of_guard eps maxiter 1 y c d hdisj
  · intro oa ob; simp [regularized_incomplete_beta, ribF]
  · intro ox ob
    cases ox <;> simp [regularized_incomplete_beta, ribF]
  · intro ox oa
    cases ox <;> [skip; cases oa] <;>
      simp [regularized_incomplete_beta, ribF]

/-- Witness for C1 (amended) at `x = 1/2`, `a = 1`, `b = 1`. -/
theorem rib_domain_and_error_behavior_witness :
    (∃ r : ℝ, regularized_incomplete_beta (some (1 / 2 : ℝ)) (some 1)
      (some 1) (1 / 10 ^ 10) 10000 = .ok (some r)) ∧
    regularized_incomplete_beta (some (0 : ℝ)) (some 1) (some 1)
      (1 / 10 ^ 10) 10000 = .error () :=
  ⟨(rib_domain_and_error_behavior (1 / 10 ^ 10) 10000 (1 / 2) 1 1
      (by norm_num) (by norm_num) (by norm_num) (by norm_num)).1
      (by norm_num) (by norm_num),
    (rib_domain_and_error_behavior (1 / 10 ^ 10) 10000 0 1 1
      (by norm_num) (by norm_num) (by norm_num) (by norm_num)).2.1
      (Or.inl rfl)⟩

/-- The exception taxonomy of `dm_test` (source lines 6-18 plus
propagated exceptions): `invalidParameter`, `zeroVariance` and
`negativeVariance` are the source's own exception classes;
`lossError` is an exception raised by the caller-supplied loss
callable; `valueError` is the `math.log` domain error propagating out
of `regularized_incomplete_beta`. -/
inductive DMError where
  | invalidParameter
  | zeroVariance
  | negativeVariance
  | lossError
  | valueError
deriving DecidableEq

/-- The accumulation loop of `dm_test` (source lines 192-196): for
each aligned triple `(v, p1, p2)` compute `l1 = loss(v, p1)` then
`l2 = loss(v, p2)` and collect `l1 - l2`; iteration stops at the
shortest sequence (`zip`), and an exception from the loss callable
propagates immediately. -/
def computeD (loss : F → F → Except Unit F) :
    List F → List F → List F → Except Unit (List F)
  | v :: vs, p :: ps, q :: qs =>
    match loss v p with
    | .error e => .error e
    | .ok l1 =>
      match loss v q with
      | .error e => .error e
      | .ok l2 =>
        match computeD loss vs ps qs with
        | .error e => .error e
        | .ok rest => .ok ((l1 - l2) :: rest)
  | _, _, _ => .ok []

/-- The loss-differential series produced by the accumulation loop for
a total (never-raising) loss function `g`. -/
def diffList (g : F → F → F) : List F → List F → List F → List F
  | v :: vs, p :: ps, q :: qs => (g v p - g v q) :: diffList g vs ps qs
  | _, _, _ => []

/-- The `"acf"` long-run variance estimator (source lines 201-208):
lag 0 enters with weight 1, lags `1 .. h-1` with weight 2, and the
accumulated sum is divided by `n`. -/
def acfVd (D : List F) (mean : F) (h n : ℕ) : F :=
  (∑ i in Finset.range h,
    (if i = 0 then autocovariance D i mean
     else 2 * autocovariance D i mean)) / (n : F)

/-- The `"bartlett"` long-run variance estimator (source lines
209-216): lag 0 enters with weight 1 and lag `i >= 1` with weight
`2 * (1 - i / h)`, the sum again divided by `n`. -/
def bartlettVd (D : List F) (mean : F) (h n : ℕ) : F :=
  (∑ i in Finset.range h,
    (if i = 0 then autocovariance D i mean
     else autocovariance D i mean * 2 * (1 - (i : F) / (h : F)))) / (n : F)

/-- The estimator dispatch of `dm_test` (source lines 200-222): the
`if`/`elif`/`else` chain on the `variance_estimator` string; an
unrecognized name raises `InvalidParameterException` — but only after
the loss-differential loop already ran. -/
def dmVd (est : String) (D : List F) (mean : F) (h n : ℕ) :
    Except DMError F :=
  if est = "acf" then .ok (acfVd D mean h n)
  else if est = "bartlett" then .ok (bartlettVd D mean h n)
  else .error .invalidParameter

/-- `dm_test` (source lines 112-249).  The horizon is an integer (so
that `h <= 0` is expressible); booleans select the one-sided p-value
and the Harvey correction; the estimator is the raw string.  The
result models Python control flow: `.error` for each raised exception
and `.ok (statistic, p-value)` otherwise, the p-value an `Option`
(`none` = NaN).  `Real.sqrt` is total in Lean; both `sqrt` arguments
are provably nonnegative on the paths reached (`V_d > 0` is checked,
and the Harvey numerator is `((n-h)^2 + (n-h))/n >= 0` for
`h <= n`), so no `ValueError` from `math.sqrt` is lost by this
modelling. -/
noncomputable def dm_test (V P1 P2 : List ℝ)
    (loss : ℝ → ℝ → Except Unit ℝ) (h : ℤ)
    (one_sided harvey_correction : Bool)
    (variance_estimator : String) : Except DMError (ℝ × Option ℝ) :=
  if ¬(V.length = P1.length ∧ P1.length = P2.length) then
    .error .invalidParameter
  else if h ≤ 0 then .error .invalidParameter
  else if (V.length : ℤ) < h then .error .invalidParameter
  else
    match computeD loss V P1 P2 with
    | .error _ => .error .lossError
    | .ok D =>
      let n := P1.length
      let mean := D.sum / (n : ℝ)
      match dmVd variance_estimator D mean h.toNat n with
      | .error e => .error e
      | .ok vD =>
        if vD = 0 then .error .zeroVariance
        else if vD < 0 then .error .negativeVariance
        else
          let dmstat := if harvey_correction then
              Real.sqrt (((n : ℝ) + 1 - 2 * (h : ℝ) +
                  (h : ℝ) * ((h : ℝ) - 1) / (n : ℝ)) / (n : ℝ)) /
                Real.sqrt vD * mean
            else mean / Real.sqrt vD
          match regularized_incomplete_beta
              (some (((n : ℝ) - 1) / (((n : ℝ) - 1) + dmstat ^ 2)))
              (some (0.5 * ((n : ℝ) - 1))) (some 0.5)
              (1 / 10 ^ 10) 10000 with
          | .error _ => .error .valueError
          | .ok pv =>
            let pvalue := if one_sided then
                pv.map fun p => if dmstat < 0 then p / 2 else 1 - p / 2
              else pv
            .ok (dmstat, pvalue)

/-- The accumulation loop with a total loss: no exception, the
loss-differential series as a pure list. -/
theorem computeD_pure (g : ℝ → ℝ → ℝ) :
    ∀ (V P1 P2 : List ℝ),
      computeD (fun u v => Except.ok (g u v)) V P1 P2 =
        Except.ok (diffList g V P1 P2)
  | [], p, q => by cases p <;> cases q <;> simp [computeD, diffList]
  | v :: vs, [], q => by cases q <;> simp [computeD, diffList]
  | v :: vs, p :: ps, [] => by simp [computeD, diffList]
  | v :: vs, p :: ps, q :: qs => by
    simp [computeD, diffList, computeD_pure g vs ps qs]

/-- Claim C10: with horizon `h = 1` the `"acf"` and `"bartlett"`
estimators coincide (only the lag-0 term contributes, with identical
weight 1), so `dm_test` returns identical results for the two
estimator choices, all other arguments equal. -/
theorem dm_test_acf_eq_bartlett_at_h_one (V P1 P2 : List ℝ)
    (loss : ℝ → ℝ → Except Unit ℝ) (os hc : Bool) :
    dm_test V P1 P2 loss 1 os hc ("acf") =
      dm_test V P1 P2 loss 1 os hc ("bartlett") := by
  have hv : ∀ (D : List ℝ) (m : ℝ) (n : ℕ),
      bartlettVd D m 1 n = acfVd D m 1 n := by
    intro D m n
    simp [acfVd, bartlettVd]
  have hdm : ∀ (D : List ℝ) (m : ℝ) (n : ℕ),
      dmVd ("bartlett") D m 1 n = dmVd ("acf") D m 1 n := by
    intro D m n
    unfold dmVd
    rw [if_neg (by decide : ("bartlett" : String) ≠ "acf"),
      if_pos rfl, if_pos rfl, hv]
  unfold dm_test
  simp only [hdm]
  rfl

/-- Claim C5 counterexample: with valid lengths and horizon but an
unrecognized estimator name, a raising loss makes `dm_test` propagate
the loss's own exception rather than `InvalidParameterException`:
the loss-differential loop runs — invoking the caller-supplied loss —
before the estimator-name check. -/
theorem dm_test_estimator_check_after_loss :
    dm_test [0] [0] [0] (fun _ _ => Except.error ()) 1 false true
        ("bogus") = .error .lossError ∧
      (Except.error DMError.lossError :
          Except DMError (ℝ × Option ℝ)) ≠ .error .invalidParameter := by
  constructor
  · unfold dm_test
    norm_num [computeD]
  · simp

/-- Claim C5 (amended): the length and horizon validations fire before
any numeric work, for every loss callable; the unrecognized-estimator
check also raises `InvalidParameterException`, but only after the
loss-differential loop has run. -/
theorem dm_test_validation_order (V P1 P2 : List ℝ)
    (loss : ℝ → ℝ → Except Unit ℝ) (h : ℤ) (os hc : Bool)
    (est : String) :
    (¬(V.length = P1.length ∧ P1.length = P2.length) ∨ h ≤ 0 ∨
        (V.length : ℤ) < h →
      dm_test V P1 P2 loss h os hc est = .error .invalidParameter) ∧
    (V.length = P1.length → P1.length = P2.length → 0 < h →
      h ≤ (V.length : ℤ) → est ≠ "acf" → est ≠ "bartlett" →
      ∀ g : ℝ → ℝ → ℝ,
        dm_test V P1 P2 (fun u v => Except.ok (g u v)) h os hc est =
          .error .invalidParameter) := by
  constructor
  · intro hbad
    unfold dm_test
    by_cases h1 : ¬(V.length = P1.length ∧ P1.length = P2.length)
    · rw [if_pos h1]
    · rw [if_neg h1]
      by_cases h2 : h ≤ 0
      · rw [if_pos h2]
      · rw [if_neg h2]
        have h3 : (V.length : ℤ) < h := by
          rcases hbad with hb | hb | hb
          · exact absurd hb h1
          · exact absurd hb h2
          · exact hb
        rw [if_pos h3]
  · intro hl1 hl2 hp hle he1 he2 g
    unfold dm_test
    rw [if_neg (not_not_intro ⟨hl1, hl2⟩), if_neg (not_le.mpr hp),
      if_neg (not_lt.mpr hle)]
    simp only [computeD_pure g, dmVd, he1, he2, if_false]

/-- Witness for C5 (amended): a length mismatch is rejected. -/
theorem dm_test_validation_order_witness :
    dm_test [0] [0, 0] [0] (fun _ _ => Except.ok 0) 1 false true
      ("acf") = .error .invalidParameter :=
  (dm_test_validation_order [0] [0, 0] [0] (fun _ _ => Except.ok 0) 1
    false true ("acf")).1 (Or.inl (by simp))

/-- A list sum of mapped values as a `Finset.range` sum over
positions. -/
theorem list_map_sum_eq_range_sum {α : Type} (l : List α) (f : α → ℝ)
    (d : α) :
    (l.map f).sum = ∑ i in Finset.range l.length, f (l.getD i d) := by
  induction l with
  | nil => simp
  | cons a l ih =>
    simp only [List.map_cons, List.sum_cons, List.length_cons]
    rw [Finset.sum_range_succ']
    simp only [List.getD_cons_succ, List.getD_cons_zero]
    rw [ih]
    ring

/-- `autocovariance` in index form: the zip of the `k`-shifted list
with the original pairs `X[t+k]` with `X[t]` for
`t = 0 .. len X - k - 1`. -/
theorem autocovariance_closed_form (X : List ℝ) (k : ℕ) (m : ℝ) :
    autocovariance X k m =
      (∑ t in Finset.range (X.length - k),
        (X.getD (t + k) 0 - m) * (X.getD t 0 - m)) / (X.length : ℝ) := by
  unfold autocovariance
  rw [list_map_sum_eq_range_sum _ _ (0, 0)]
  have hlen : ((X.drop k).zip X).length = X.length - k := by
    rw [List.length_zip, List.length_drop]
    exact min_eq_left (Nat.sub_le _ _)
  rw [hlen]
  congr 1
  apply Finset.sum_congr rfl
  intro t ht
  have htl : t < X.length - k := Finset.mem_range.mp ht
  have h1 : t < ((X.drop k).zip X).length := by rw [hlen]; exact htl
  rw [List.getD_eq_getElem _ _ h1, List.getElem_zip, List.getElem_drop]
  rw [List.getD_eq_getElem X 0 (show t + k < X.length by omega),
    List.getD_eq_getElem X 0 (show t < X.length by omega)]
  simp only [show k + t = t + k from Nat.add_comm k t]

/-- Claim C7: the `"acf"` estimator equals
`(gamma_0 + 2 * sum_{i=1}^{h-1} gamma_i) / n`, the `"bartlett"`
estimator equals
`(gamma_0 + sum_{i=1}^{h-1} 2 * (1 - i/h) * gamma_i) / n`, where
`gamma_i = autocovariance D i mean`, itself equal to
`(1/n) * sum_{t=0}^{n-i-1} (D[t+i] - mean) * (D[t] - mean)`. -/
theorem variance_estimators_closed_form (D : List ℝ) (mean : ℝ)
    (h n : ℕ) (X : List ℝ) (k : ℕ) (m : ℝ) (hh : 1 ≤ h) :
    acfVd D mean h n =
      (autocovariance D 0 mean +
        2 * ∑ i in Finset.Ico 1 h, autocovariance D i mean) / (n : ℝ) ∧
    bartlettVd D mean h n =
      (autocovariance D 0 mean +
        ∑ i in Finset.Ico 1 h,
          2 * (1 - (i : ℝ) / (h : ℝ)) * autocovariance D i mean) /
        (n : ℝ) ∧
    autocovariance X k m =
      (∑ t in Finset.range (X.length - k),
        (X.getD (t + k) 0 - m) * (X.getD t 0 - m)) / (X.length : ℝ) := by
  refine ⟨?_, ?_, autocovariance_closed_form X k m⟩
  · unfold acfVd
    congr 1
    rw [Finset.range_eq_Ico,
      Finset.sum_eq_sum_Ico_succ_bot (by omega : 0 < h)]
    rw [if_pos rfl, Finset.mul_sum]
    congr 1
    refine Finset.sum_congr rfl fun i hi => ?_
    rw [if_neg (by have := (Finset.mem_Ico.mp hi).1; omega)]
  · unfold bartlettVd
    congr 1
    rw [Finset.range_eq_Ico,
      Finset.sum_eq_sum_Ico_succ_bot (by omega : 0 < h)]
    rw [if_pos rfl]
    congr 1
    refine Finset.sum_congr rfl fun i hi => ?_
    rw [if_neg (by have := (Finset.mem_Ico.mp hi).1; omega)]
    ring

/-- Witness for C7 at `D = [1]`, `mean = 0`, `h = n = 1`, `X = [2]`,
`k = 0`, `m = 0`. -/
theorem variance_estimators_closed_form_witness :
    acfVd ([1] : List ℝ) 0 1 1 =
      (autocovariance ([1] : List ℝ) 0 0 +
        2 * ∑ i in Finset.Ico (1 : ℕ) 1,
          autocovariance ([1] : List ℝ) i 0) / ((1 : ℕ) : ℝ) ∧
    bartlettVd ([1] : List ℝ) 0 1 1 =
      (autocovariance ([1] : List ℝ) 0 0 +
        ∑ i in Finset.Ico (1 : ℕ) 1,
          2 * (1 - (i : ℝ) / ((1 : ℕ) : ℝ)) *
            autocovariance ([1] : List ℝ) i 0) / ((1 : ℕ) : ℝ) ∧
    autocovariance ([2] : List ℝ) 0 0 =
      (∑ t in Finset.range (([2] : List ℝ).length - 0),
        (([2] : List ℝ).getD (t + 0) 0 - 0) *
          (([2] : List ℝ).getD t 0 - 0)) /
        ((([2] : List ℝ).length : ℕ) : ℝ) :=
  variance_estimators_closed_form [1] 0 1 1 [2] 0 0 (by norm_num)

/-- With identical prediction series the loss differential is
identically zero. -/
theorem diffList_self_zero (g : ℝ → ℝ → ℝ) :
    ∀ (V P : List ℝ), ∀ y ∈ diffList g V P P, y = 0
  | v :: vs, p :: ps => by
    intro y hy
    simp only [diffList, List.mem_cons] at hy
    rcases hy with hrfl | h
    · rw [hrfl]; ring
    · exact diffList_self_zero g vs ps y h
  | [], p => by intro y hy; simp [diffList] at hy
  | v :: vs, [] => by intro y hy; simp [diffList] at hy

/-- The autocovariance of an identically-zero series about mean 0 is
zero at every lag. -/
theorem autocovariance_all_zero (D : List ℝ) (i : ℕ)
    (hD : ∀ y ∈ D, y = 0) : autocovariance D i 0 = 0 := by
  have h0 : (((D.drop i).zip D).map fun p => (p.1 - 0) * (p.2 - 0)).sum
      = 0 := by
    apply List.sum_eq_zero
    intro z hz
    obtain ⟨p, hp, rfl⟩ := List.mem_map.mp hz
    obtain ⟨p1, p2⟩ := p
    have hmem := List.of_mem_zip hp
    rw [hD p1 (List.mem_of_mem_drop hmem.1), hD p2 hmem.2]
    ring
  unfold autocovariance
  rw [h0, zero_div]

/-- The `"acf"` estimate of an identically-zero series is zero. -/
theorem acfVd_all_zero (D : List ℝ) (h n : ℕ)
    (hD : ∀ y ∈ D, y = 0) : acfVd D 0 h n = 0 := by
  have h0 : ∑ i in Finset.range h,
      (if i = 0 then autocovariance D i 0
       else 2 * autocovariance D i 0) = 0 :=
    Finset.sum_eq_zero fun i _ => by
      rw [autocovariance_all_zero D i hD]; simp
  unfold acfVd
  rw [h0, zero_div]

/-- The `"bartlett"` estimate of an identically-zero series is zero. -/
theorem bartlettVd_all_zero (D : List ℝ) (h n : ℕ)
    (hD : ∀ y ∈ D, y = 0) : bartlettVd D 0 h n = 0 := by
  have h0 : ∑ i in Finset.range h,
      (if i = 0 then autocovariance D i 0
       else autocovariance D i 0 * 2 * (1 - (i : ℝ) / (h : ℝ))) = 0 :=
    Finset.sum_eq_zero fun i _ => by
      rw [autocovariance_all_zero D i hD]; simp
  unfold bartlettVd
  rw [h0, zero_div]

/-- Claim C8: past validation, a zero variance estimate raises
`ZeroVarianceException` and a negative one raises
`NegativeVarianceException`, two distinct typed errors; in particular
`P1 = P2` (identically zero loss differential) raises
`ZeroVarianceException`. -/
theorem dm_test_variance_exceptions (V P1 P2 : List ℝ)
    (g : ℝ → ℝ → ℝ) (h : ℤ) (os hc : Bool) (est : String) (vD : ℝ)
    (hl1 : V.length = P1.length) (hl2 : P1.length = P2.length)
    (hp : 0 < h) (hle : h ≤ (V.length : ℤ))
    (hVd : dmVd est (diffList g V P1 P2)
        ((diffList g V P1 P2).sum / (P1.length : ℝ)) h.toNat
        P1.length = .ok vD) :
    (vD = 0 → dm_test V P1 P2 (fun u v => Except.ok (g u v)) h os hc
      est = .error .zeroVariance) ∧
    (vD < 0 → dm_test V P1 P2 (fun u v => Except.ok (g u v)) h os hc
      est = .error .negativeVariance) ∧
    (P1 = P2 → dm_test V P1 P2 (fun u v => Except.ok (g u v)) h os hc
      est = .error .zeroVariance) := by
  have key0 : vD = 0 → dm_test V P1 P2 (fun u v => Except.ok (g u v))
      h os hc est = .error .zeroVariance := by
    intro h0
    unfold dm_test
    rw [if_neg (not_not_intro ⟨hl1, hl2⟩), if_neg (not_le.mpr hp),
      if_neg (not_lt.mpr hle)]
    simp only [computeD_pure g, hVd]
    rw [if_pos h0]
  refine ⟨key0, ?_, ?_⟩
  · intro hneg
    unfold dm_test
    rw [if_neg (not_not_intro ⟨hl1, hl2⟩), if_neg (not_le.mpr hp),
      if_neg (not_lt.mpr hle)]
    simp only [computeD_pure g, hVd]
    rw [if_neg (ne_of_lt hneg), if_pos hneg]
  · intro hP
    subst hP
    apply key0
    have hD0 := diffList_self_zero g V P1
    have hmean : (diffList g V P1 P1).sum / (P1.length : ℝ) = 0 := by
      rw [List.sum_eq_zero hD0]
      exact zero_div _
    rw [hmean] at hVd
    by_cases e1 : est = "acf"
    · unfold dmVd at hVd
      rw [if_pos e1] at hVd
      injection hVd with hinj
      rw [← hinj]
      exact acfVd_all_zero _ _ _ hD0
    · by_cases e2 : est = "bartlett"
      · unfold dmVd at hVd
        rw [if_neg e1, if_pos e2] at hVd
        injection hVd with hinj
        rw [← hinj]
        exact bartlettVd_all_zero _ _ _ hD0
      · unfold dmVd at hVd
        rw [if_neg e1, if_neg e2] at hVd
        exact absurd hVd (by simp)

/-- Witness for C8: identical prediction series trigger the
zero-variance exception. -/
theorem dm_test_variance_exceptions_witness :
    dm_test [0, 1] [1, 2] [1, 2]
        (fun u v => Except.ok ((u - v) ^ 2)) 1 false true ("acf") =
      .error .zeroVariance :=
  (dm_test_variance_exceptions [0, 1] [1, 2] [1, 2]
      (fun u v => (u - v) ^ 2) 1 false true ("acf")
      (acfVd (diffList (fun u v => (u - v) ^ 2) [0, 1] [1, 2] [1, 2])
        ((diffList (fun u v => (u - v) ^ 2) [0, 1] [1, 2]
            [1, 2]).sum / (([1, 2] : List ℝ).length : ℝ))
        (1 : ℤ).toNat ([1, 2] : List ℝ).length)
      rfl rfl (by norm_num) (by norm_num) (by simp [dmVd])).2.2 rfl

/-- Follows the spec's words (section 4.5, "Statistic" and
"p-value"): the statistic is `mean/sqrt(V_d)`, multiplied, when the
Harvey correction is enabled, by `sqrt((n+1-2h+h(h-1)/n)/n)`; the
p-value is `I_x(0.5*(n-1), 0.5)` at `x = (n-1)/((n-1)+dmstat^2)`;
one-sided: `pvalue/2` if `dmstat < 0`, else `1 - pvalue/2`; the
two-sided p-value is returned as-is.  Stated as the expected tail of
`dm_test` past the variance check, for comparison with the code. -/
noncomputable def specStatPvalue (n : ℕ) (h : ℤ) (mean vD : ℝ)
    (os hc : Bool) : Except DMError (ℝ × Option ℝ) :=
  let dmstat : ℝ := if hc then
      mean / Real.sqrt vD *
        Real.sqrt (((n : ℝ) + 1 - 2 * (h : ℝ) +
          (h : ℝ) * ((h : ℝ) - 1) / (n : ℝ)) / (n : ℝ))
    else mean / Real.sqrt vD
  match regularized_incomplete_beta
      (some (((n : ℝ) - 1) / (((n : ℝ) - 1) + dmstat ^ 2)))
      (some (0.5 * ((n : ℝ) - 1))) (some 0.5) (1 / 10 ^ 10) 10000 with
  | .error _ => .error .valueError
  | .ok pv =>
    .ok (dmstat,
      if os then pv.map fun p => if dmstat < 0 then p / 2 else 1 - p / 2
      else pv)

/-- Claim C2: past validation with a total loss and a positive
variance estimate, `dm_test` returns exactly the claimed statistic
(`mean/sqrt(V_d)` with the optional Harvey factor
`sqrt((n+1-2h+h(h-1)/n)/n)`), the claimed p-value
(`regularized_incomplete_beta` at `x = (n-1)/((n-1)+dmstat^2)`,
`a = 0.5*(n-1)`, `b = 0.5`), and the claimed one-sided adjustment
(`pvalue/2` when `dmstat < 0`, else `1 - pvalue/2`; two-sided
unmodified). -/
theorem dm_test_statistic_and_pvalue (V P1 P2 : List ℝ)
    (g : ℝ → ℝ → ℝ) (h : ℤ) (os hc : Bool) (est : String) (vD : ℝ)
    (hl1 : V.length = P1.length) (hl2 : P1.length = P2.length)
    (hp : 0 < h) (hle : h ≤ (V.length : ℤ))
    (hVd : dmVd est (diffList g V P1 P2)
        ((diffList g V P1 P2).sum / (P1.length : ℝ)) h.toNat
        P1.length = .ok vD)
    (hpos : 0 < vD) :
    dm_test V P1 P2 (fun u v => Except.ok (g u v)) h os hc est =
      specStatPvalue P1.length h
        ((diffList g V P1 P2).sum / (P1.length : ℝ)) vD os hc := by
  unfold dm_test specStatPvalue
  rw [if_neg (not_not_intro ⟨hl1, hl2⟩), if_neg (not_le.mpr hp),
    if_neg (not_lt.mpr hle)]
  simp only [computeD_pure g, hVd]
  rw [if_neg (ne_of_gt hpos), if_neg (not_lt.mpr (le_of_lt hpos))]
  have hstat : (if hc = true then
        Real.sqrt (((P1.length : ℝ) + 1 - 2 * (h : ℝ) +
            (h : ℝ) * ((h : ℝ) - 1) / (P1.length : ℝ)) /
          (P1.length : ℝ)) / Real.sqrt vD *
          ((diffList g V P1 P2).sum / (P1.length : ℝ))
      else ((diffList g V P1 P2).sum / (P1.length : ℝ)) /
        Real.sqrt vD) =
      (if hc = true then
        ((diffList g V P1 P2).sum / (P1.length : ℝ)) / Real.sqrt vD *
          Real.sqrt (((P1.length : ℝ) + 1 - 2 * (h : ℝ) +
            (h : ℝ) * ((h : ℝ) - 1) / (P1.length : ℝ)) /
          (P1.length : ℝ))
      else ((diffList g V P1 P2).sum / (P1.length : ℝ)) /
        Real.sqrt vD) := by
    cases hc
    · rfl
    · simp only [if_true]
      ring
  rw [hstat]

/-- Witness for C2 at `V = [0, 0]`, `P1 = [1, 0]`, `P2 = [0, 0]`,
squared-error loss, `h = 1`, two-sided, Harvey correction on,
`"acf"`: the loss differential is `[1, 0]` and the variance estimate
is `1/8 > 0`. -/
theorem dm_test_statistic_and_pvalue_witness :
    dm_test [0, 0] [1, 0] [0, 0]
        (fun u v => Except.ok ((u - v) ^ 2)) 1 false true ("acf") =
      specStatPvalue ([1, 0] : List ℝ).length 1
        ((diffList (fun u v => (u - v) ^ 2) [0, 0] [1, 0] [0, 0]).sum /
          (([1, 0] : List ℝ).length : ℝ))
        (acfVd (diffList (fun u v => (u - v) ^ 2) [0, 0] [1, 0] [0, 0])
          ((diffList (fun u v => (u - v) ^ 2) [0, 0] [1, 0]
              [0, 0]).sum / (([1, 0] : List ℝ).length : ℝ))
          (1 : ℤ).toNat ([1, 0] : List ℝ).length) false true :=
  dm_test_statistic_and_pvalue [0, 0] [1, 0] [0, 0]
    (fun u v => (u - v) ^ 2) 1 false true ("acf") _ rfl rfl
    (by norm_num) (by norm_num) (by simp [dmVd])
    (by norm_num [acfVd, diffList, autocovariance,
      Finset.sum_range_one])

end DieboldMariano
